import Mathlib

/-!
Verification of the Quick Survey application.

The first part embeds the client survey runner from `script.js`:
the session state (phase, current question index, answer set), the
per-question-type input surfaces, the navigation gate, navigation,
restart and the results aggregation.  The second part embeds the
categories CRUD handlers from `server.js`.
-/

namespace Survey

/-- Question type tag (`question.type` in `script.js`): the switch in
`displayQuestion` dispatches on the values `multiple-choice`, `rating`
and `text`. -/
inductive QType where
  | multipleChoice
  | rating
  | text
deriving DecidableEq

/-- One question of the survey definition JSON (fields read by
`script.js`). -/
structure Question where
  id : Nat
  qtype : QType
  title : String
  description : Option String
  required : Bool
  options : List String
  scale : Nat
  labels : Option (String × String)
  placeholder : Option String
deriving DecidableEq

/-- A recorded answer value: `this.answers[question.id]` holds a string
(multiple-choice option or text content) or a number (rating). -/
inductive Answer where
  | aStr (v : String)
  | aInt (v : Nat)
deriving DecidableEq

/-- The answer map `this.answers`, keyed by question id; a missing key is
`none` (JS `undefined`). -/
def AnswerSet : Type := Nat → Option Answer

/-- Lifecycle phase: which screen is active (`welcome-screen`,
`survey-screen`, `results-screen`). -/
inductive Phase where
  | welcome
  | inProgress
  | results
deriving DecidableEq

/-- The mutable state of a `SurveyApp` instance: `surveyData.questions`,
the active screen, `currentQuestionIndex` and `answers`. -/
structure AppState where
  surveyData : List Question
  phase : Phase
  currentIndex : Nat
  answers : AnswerSet

/-- State right after construction and `showWelcomeScreen`:
`currentQuestionIndex = 0`, `answers = {}`, welcome screen active. -/
def initState (qs : List Question) : AppState :=
  { surveyData := qs
    phase := Phase.welcome
    currentIndex := 0
    answers := fun _ => none }

/-- Writing `this.answers[id] = a` (JS object key update). -/
def updateAnswers (ans : AnswerSet) (id : Nat) (a : Answer) : AnswerSet :=
  fun j => if j = id then some a else ans j

/-- The `hasAnswer` check of `updateNavigationButtons` (lines 227-228):
`answers[id] !== undefined && answers[id] !== ''`.  A numeric rating
answer is never strictly equal to the empty string. -/
def hasAnswer : Option Answer → Bool
  | none => false
  | some (Answer.aStr v) => !(v == "")
  | some (Answer.aInt _) => true

/-- Whether the next button is disabled (lines 227-231):
`isRequired && !hasAnswer` for the current question. -/
def nextDisabled (s : AppState) : Bool :=
  match s.surveyData[s.currentIndex]? with
  | some q => q.required && !(hasAnswer (s.answers q.id))
  | none => true

/-- `startSurvey` (lines 59-64): only reachable from the welcome screen
(the start button lives there); resets index and answers and enters the
survey screen. -/
def startSurvey (s : AppState) : AppState :=
  if s.phase = Phase.welcome then
    { s with
      phase := Phase.inProgress
      currentIndex := 0
      answers := fun _ => none }
  else s

/-- `nextQuestion` (lines 248-256): advance the index, or complete the
survey (results screen) when at the last index. -/
def nextQuestion (s : AppState) : AppState :=
  if s.currentIndex < s.surveyData.length - 1 then
    { s with currentIndex := s.currentIndex + 1 }
  else
    { s with phase := Phase.results }

/-- A click on the next button: it only fires while the survey screen is
active and the button is not disabled by the gate of
`updateNavigationButtons`; then `nextQuestion` runs. -/
def goNext (s : AppState) : AppState :=
  if s.phase = Phase.inProgress then
    if nextDisabled s then s else nextQuestion s
  else s

/-- `previousQuestion` (lines 241-246): decrement the index when it is
positive, otherwise do nothing. -/
def previousQuestion (s : AppState) : AppState :=
  if 0 < s.currentIndex then { s with currentIndex := s.currentIndex - 1 }
  else s

/-- A click on the previous button (survey screen only). -/
def goPrevious (s : AppState) : AppState :=
  if s.phase = Phase.inProgress then previousQuestion s else s

/-- `restartSurvey` (lines 298-302): the restart button lives on the
results screen; resets index and answers and shows the welcome screen.
`surveyData` is not touched and not re-fetched. -/
def restartSurvey (s : AppState) : AppState :=
  if s.phase = Phase.results then
    { s with
      phase := Phase.welcome
      currentIndex := 0
      answers := fun _ => none }
  else s

/-- User input events on the input surface of the current question.
`chooseOption k` is a click on the k-th rendered option element of a
multiple-choice question (`createMultipleChoiceOptions`), `chooseRating i`
a click on the rating control labeled `i` (`createRatingOptions` renders
controls for 1..scale only), `typeText t` an input event on the textarea
with current content `t` (`createTextInput`). -/
inductive Event where
  | start
  | next
  | prev
  | restart
  | chooseOption (k : Nat)
  | chooseRating (i : Nat)
  | typeText (t : String)
deriving DecidableEq

/-- Input only reaches the surface of the current question while the
survey screen is active; anywhere else the answer map stays as it is. -/
def onCurrentQuestion (s : AppState) (f : Question → AnswerSet) : AnswerSet :=
  if s.phase = Phase.inProgress then
    match s.surveyData[s.currentIndex]? with
    | none => s.answers
    | some q => f q
  else s.answers

/-- The answer map after an input event: the surface for the current
question is the only one rendered, and each click handler writes the
value carried by the clicked control into `answers` (lines 127-137,
153-163, 188-191).  Events that no rendered control can emit leave the
map unchanged. -/
def submittedAnswers (s : AppState) : Event → AnswerSet
  | Event.chooseOption k =>
    onCurrentQuestion s fun q =>
      if q.qtype = QType.multipleChoice then
        match q.options[k]? with
        | some opt => updateAnswers s.answers q.id (Answer.aStr opt)
        | none => s.answers
      else s.answers
  | Event.chooseRating i =>
    onCurrentQuestion s fun q =>
      if q.qtype = QType.rating ∧ 1 ≤ i ∧ i ≤ q.scale then
        updateAnswers s.answers q.id (Answer.aInt i)
      else s.answers
  | Event.typeText t =>
    onCurrentQuestion s fun q =>
      if q.qtype = QType.text then
        updateAnswers s.answers q.id (Answer.aStr t)
      else s.answers
  | _ => s.answers

/-- Effect of an input event on the app state: the handlers write only
into `this.answers`. -/
def submitAnswer (s : AppState) (e : Event) : AppState :=
  { s with answers := submittedAnswers s e }

/-- One UI event processed by the app. -/
def stepEvent (s : AppState) (e : Event) : AppState :=
  match e with
  | Event.start => startSurvey s
  | Event.next => goNext s
  | Event.prev => goPrevious s
  | Event.restart => restartSurvey s
  | Event.chooseOption _ => submitAnswer s e
  | Event.chooseRating _ => submitAnswer s e
  | Event.typeText _ => submitAnswer s e

/-- States reachable from the freshly initialised app for a loaded
definition `qs`. -/
inductive Reachable (qs : List Question) : AppState → Prop where
  | init : Reachable qs (initState qs)
  | step {s : AppState} (e : Event) (h : Reachable qs s) :
      Reachable qs (stepEvent s e)

/-- The string a recorded answer shows when interpolated into the DOM
(`restorePreviousAnswer` builds the selector from the raw value; numbers
are stringified). -/
def answerStr : Answer → String
  | Answer.aStr v => v
  | Answer.aInt v => toString v

/-- JS truthiness of a recorded answer, as tested by the guard
`if (!previousAnswer) return;` in `restorePreviousAnswer` (line 198):
the empty string and the number 0 are falsy. -/
def answerTruthy : Answer → Bool
  | Answer.aStr v => !(v == "")
  | Answer.aInt v => !(v == 0)

/-- Whether the rating control labeled `j` matches the selector
`[data-value="${previousAnswer}"]`: its `data-value` is the string of
`j`, so a numeric answer matches exactly the control with the same
number, and a string answer matches a control whose stringified label
equals it. -/
def domValueMatches (j : Nat) (a : Answer) : Bool :=
  match a with
  | Answer.aInt v => j == v
  | Answer.aStr t => toString j == t

/-- Abstract description of the rendered input surface inside
`options-container`: the option list with the index of the selected one,
the rating scale with the selected value, or the textarea content. -/
inductive Surface where
  | mcList (opts : List String) (selected : Option Nat)
  | ratingScale (scale : Nat) (selected : Option Nat)
  | textBox (content : String)
deriving DecidableEq

/-- The fresh surface built by `createMultipleChoiceOptions`,
`createRatingOptions` or `createTextInput`: nothing selected, empty
textarea. -/
def createSurface (q : Question) : Surface :=
  match q.qtype with
  | QType.multipleChoice => Surface.mcList q.options none
  | QType.rating => Surface.ratingScale q.scale none
  | QType.text => Surface.textBox ("")

/-- `querySelector` over the rendered option elements of a
multiple-choice question: index of the first element whose `data-value`
equals the given string, if any. -/
def querySelectOption : List String → String → Option Nat
  | [], _ => none
  | o :: rest, v =>
    if o == v then some 0 else (querySelectOption rest v).map (· + 1)

/-- `restorePreviousAnswer` (lines 196-216) applied after the fresh
surface is built: a truthy recorded answer selects the first matching
option element (`querySelector` returns the first match), the matching
rating control, or fills the textarea. -/
def restorePreviousAnswer (q : Question) (ans : AnswerSet) : Surface :=
  match ans q.id with
  | none => createSurface q
  | some a =>
    if answerTruthy a then
      match q.qtype with
      | QType.multipleChoice =>
        Surface.mcList q.options (querySelectOption q.options (answerStr a))
      | QType.rating =>
        Surface.ratingScale q.scale
          ((List.range' 1 q.scale).find? (fun j => domValueMatches j a))
      | QType.text => Surface.textBox (answerStr a)
    else createSurface q

/-- `displayQuestion` (lines 83-118), restricted to the input surface it
leaves in `options-container`: build fresh controls, then restore the
previously recorded answer. -/
def displayQuestion (q : Question) (ans : AnswerSet) : Surface :=
  restorePreviousAnswer q ans

/-- The formatted answer text of one summary item of `displayResults`
(lines 280-284): rating answers render as value out of scale, all other
answers render as the raw value. -/
def formatAnswer (q : Question) (a : Answer) : String :=
  if q.qtype = QType.rating then s!"{answerStr a} out of {q.scale}"
  else answerStr a

/-- What the results screen shows: either the list of summary items or
the explicit no-responses message. -/
inductive ResultsView where
  | noResponses
  | summary (items : List (String × String))
deriving DecidableEq

/-- The summary items appended into `survey-summary` by the forEach loop
of `displayResults` (lines 267-290): walk the questions in order and
append a (title, formatted answer) item for every answer that is present
(`!== undefined`) and not the empty string (`!== ''`). -/
def summaryItems (qs : List Question) (ans : AnswerSet) :
    List (String × String) :=
  qs.foldl (fun acc q =>
    match ans q.id with
    | some a =>
      if hasAnswer (some a) then acc ++ [(q.title, formatAnswer q a)]
      else acc
    | none => acc) []

/-- `displayResults` (lines 262-296): show the appended summary items,
or the no-responses message when none was appended
(`children.length === 0`). -/
def displayResults (qs : List Question) (ans : AnswerSet) : ResultsView :=
  if (summaryItems qs ans).length = 0 then ResultsView.noResponses
  else ResultsView.summary (summaryItems qs ans)

/-- Modelled from the spec (results aggregator contract, section 4.5):
the ordered sequence of (question title, formatted answer) pairs in
question order, omitting any question whose answer is absent or the
empty string; rating answers render as value out of scale, all others as
the raw string. -/
def specSummary (qs : List Question) (ans : AnswerSet) :
    List (String × String) :=
  qs.filterMap (fun q =>
    match ans q.id with
    | none => none
    | some a =>
      if a = Answer.aStr ("") then none
      else some (q.title, formatAnswer q a))

/-- Every step leaves the loaded survey definition untouched: no
operation of `script.js` writes `this.surveyData` after `init`. -/
theorem stepEvent_surveyData (s : AppState) (e : Event) :
    (stepEvent s e).surveyData = s.surveyData := by
  cases e <;>
    simp only [stepEvent, startSurvey, goNext, nextQuestion, goPrevious,
      previousQuestion, restartSurvey, submitAnswer] <;>
    (repeat' split) <;> rfl

/-- In every reachable state the survey definition is the loaded one. -/
theorem reachable_surveyData {qs : List Question} {s : AppState}
    (h : Reachable qs s) : s.surveyData = qs := by
  induction h with
  | init => rfl
  | step e h ih => rw [stepEvent_surveyData]; exact ih

/-- Index invariant: while the survey screen is active the current index
stays below the number of questions. -/
theorem reachable_bound {qs : List Question} {s : AppState}
    (hne : qs ≠ []) (h : Reachable qs s) :
    s.phase = Phase.inProgress → s.currentIndex < qs.length := by
  induction h with
  | init =>
    intro hph
    exact absurd hph (by simp [initState])
  | @step s' e h ih =>
    have hsd : s'.surveyData = qs := reachable_surveyData h
    cases e with
    | start =>
      show (startSurvey s').phase = _ → (startSurvey s').currentIndex < _
      unfold startSurvey
      split
      · intro _
        exact List.length_pos.mpr hne
      · exact ih
    | next =>
      show (goNext s').phase = _ → (goNext s').currentIndex < _
      unfold goNext
      split
      · rename_i hph'
        split
        · exact ih
        · unfold nextQuestion
          split
          · rename_i hlt
            intro _
            rw [hsd] at hlt
            show s'.currentIndex + 1 < qs.length
            omega
          · intro hcon
            exact Phase.noConfusion hcon
      · exact ih
    | prev =>
      show (goPrevious s').phase = _ → (goPrevious s').currentIndex < _
      unfold goPrevious previousQuestion
      split
      · rename_i hph'
        split
        · intro _
          have hlt := ih hph'
          show s'.currentIndex - 1 < qs.length
          omega
        · exact ih
      · exact ih
    | restart =>
      show (restartSurvey s').phase = _ → (restartSurvey s').currentIndex < _
      unfold restartSurvey
      split
      · intro hcon
        exact Phase.noConfusion hcon
      · exact ih
    | chooseOption k => exact ih
    | chooseRating i => exact ih
    | typeText t => exact ih

/-- A required multiple-choice question, used as concrete input for the
witnesses. -/
def qMC : Question :=
  { id := 1
    qtype := QType.multipleChoice
    title := "Q1"
    description := none
    required := true
    options := ["A", "B"]
    scale := 0
    labels := none
    placeholder := none }

/-- A one-question survey definition for the witnesses. -/
def demoQs : List Question := [qMC]

/-- The state right after pressing start on the loaded demo survey. -/
def demoS : AppState := stepEvent (initState demoQs) Event.start

/-- C1: from a required question whose answer entry is absent or the
empty string, a press of the next button changes nothing; once any
non-empty answer for that question has been recorded, the immediately
following press advances to the next index, or to the results screen at
the last index. -/
theorem goNext_gating_law (s : AppState) (q : Question)
    (hph : s.phase = Phase.inProgress)
    (hq : s.surveyData[s.currentIndex]? = some q)
    (hreq : q.required = true) :
    ((s.answers q.id = none ∨ s.answers q.id = some (Answer.aStr (""))) →
        goNext s = s) ∧
    (∀ e : Event, hasAnswer ((submitAnswer s e).answers q.id) = true →
        goNext (submitAnswer s e) =
          (if s.currentIndex < s.surveyData.length - 1 then
            { submitAnswer s e with currentIndex := s.currentIndex + 1 }
          else
            { submitAnswer s e with phase := Phase.results })) := by
  constructor
  · intro hun
    have hno : hasAnswer (s.answers q.id) = false := by
      rcases hun with h | h <;> rw [h] <;> rfl
    have hdis : nextDisabled s = true := by
      unfold nextDisabled
      rw [hq]
      simp [hreq, hno]
    unfold goNext
    rw [if_pos hph, if_pos hdis]
  · intro e he
    have hdis : nextDisabled (submitAnswer s e) = false := by
      unfold nextDisabled
      have hq' : (submitAnswer s e).surveyData[(submitAnswer s e).currentIndex]?
          = some q := hq
      rw [hq']
      simp [hreq, he]
    unfold goNext
    rw [if_pos (show (submitAnswer s e).phase = Phase.inProgress from hph),
      hdis]
    simp only [Bool.false_eq_true, if_false]
    unfold nextQuestion
    rfl

/-- Concrete run of the gating law on the demo survey: pressing next on
the unanswered required question is a no-op; after choosing option 0 the
next press completes the survey. -/
theorem goNext_gating_law_witness :
    (goNext demoS = demoS) ∧
    (goNext (submitAnswer demoS (Event.chooseOption 0)) =
      (if demoS.currentIndex < demoS.surveyData.length - 1 then
        { submitAnswer demoS (Event.chooseOption 0) with
            currentIndex := demoS.currentIndex + 1 }
      else
        { submitAnswer demoS (Event.chooseOption 0) with
            phase := Phase.results })) :=
  ⟨(goNext_gating_law demoS qMC rfl rfl rfl).1 (Or.inl rfl),
   (goNext_gating_law demoS qMC rfl rfl rfl).2 (Event.chooseOption 0)
     (by decide)⟩

/-- C2: in every state reachable from start on a non-empty definition,
the current index is a legal question index whenever the survey screen
is active. -/
theorem currentIndex_in_bounds (qs : List Question) (hne : qs ≠ [])
    (s : AppState) (hr : Reachable qs s)
    (hph : s.phase = Phase.inProgress) :
    0 ≤ s.currentIndex ∧ s.currentIndex < qs.length :=
  ⟨Nat.zero_le _, reachable_bound hne hr hph⟩

/-- Concrete run of the index invariant right after start on the demo
survey. -/
theorem currentIndex_in_bounds_witness :
    0 ≤ demoS.currentIndex ∧ demoS.currentIndex < demoQs.length :=
  currentIndex_in_bounds demoQs (List.cons_ne_nil _ _) demoS
    (Reachable.step Event.start Reachable.init) rfl

/-- C8: a press of the previous button at index 0 of the survey screen
changes nothing at all. -/
theorem goPrevious_at_zero_noop (s : AppState)
    (hph : s.phase = Phase.inProgress) (h0 : s.currentIndex = 0) :
    goPrevious s = s := by
  unfold goPrevious previousQuestion
  rw [if_pos hph, if_neg (by omega)]

/-- Concrete run: previous at index 0 of the demo survey is a no-op. -/
theorem goPrevious_at_zero_noop_witness : goPrevious demoS = demoS :=
  goPrevious_at_zero_noop demoS rfl rfl

/-- A concrete state on the results screen, used as witness input. -/
def demoResultsState : AppState :=
  { surveyData := demoQs
    phase := Phase.results
    currentIndex := 0
    answers := fun j => if j = 1 then some (Answer.aStr ("A")) else none }

/-- C9: restart from the results screen goes back to the welcome screen
with index 0 and an empty answer map, leaving the loaded survey
definition untouched. -/
theorem restart_resets_session (s : AppState)
    (hph : s.phase = Phase.results) :
    restartSurvey s =
      { s with
        phase := Phase.welcome
        currentIndex := 0
        answers := fun _ => none } := by
  unfold restartSurvey
  rw [if_pos hph]

/-- Concrete run of restart on a results-screen state. -/
theorem restart_resets_session_witness :
    restartSurvey demoResultsState =
      { demoResultsState with
        phase := Phase.welcome
        currentIndex := 0
        answers := fun _ => none } :=
  restart_resets_session demoResultsState rfl

/-- Pressing next never writes into the answer map. -/
theorem goNext_answers (s : AppState) : (goNext s).answers = s.answers := by
  unfold goNext nextQuestion
  (repeat' split) <;> rfl

/-- Pressing previous never writes into the answer map. -/
theorem goPrevious_answers (s : AppState) :
    (goPrevious s).answers = s.answers := by
  unfold goPrevious previousQuestion
  (repeat' split) <;> rfl

/-- Shape invariant on the answer map: each recorded answer fits the type
of its question, because it was written through that question's own
input surface. -/
def AnswerInv (qs : List Question) (ans : AnswerSet) : Prop :=
  ∀ q ∈ qs, ∀ a : Answer, ans q.id = some a →
    (q.qtype = QType.multipleChoice →
      ∃ v, a = Answer.aStr v ∧ v ∈ q.options) ∧
    (q.qtype = QType.rating →
      ∃ v, a = Answer.aInt v ∧ 1 ≤ v ∧ v ≤ q.scale) ∧
    (q.qtype = QType.text → ∃ v, a = Answer.aStr v)

/-- Writing a value fitting the current question keeps the shape
invariant; question ids are unique in the definition, so the entry of
any other question is untouched. -/
theorem answerInv_update {qs : List Question} {ans : AnswerSet}
    (hnd : (qs.map Question.id).Nodup) (hinv : AnswerInv qs ans)
    {cq : Question} (hcq : cq ∈ qs) (a : Answer)
    (hok : (cq.qtype = QType.multipleChoice →
        ∃ v, a = Answer.aStr v ∧ v ∈ cq.options) ∧
      (cq.qtype = QType.rating →
        ∃ v, a = Answer.aInt v ∧ 1 ≤ v ∧ v ≤ cq.scale) ∧
      (cq.qtype = QType.text → ∃ v, a = Answer.aStr v)) :
    AnswerInv qs (updateAnswers ans cq.id a) := by
  intro q hq b hb
  unfold updateAnswers at hb
  by_cases hid : q.id = cq.id
  · have hqe : q = cq := List.inj_on_of_nodup_map hnd hq hcq hid
    rw [if_pos hid] at hb
    cases hb
    rw [hqe]
    exact hok
  · rw [if_neg hid] at hb
    exact hinv q hq b hb

/-- Any input event keeps the shape invariant. -/
theorem answerInv_submit {qs : List Question} {s : AppState}
    (hnd : (qs.map Question.id).Nodup) (hsd : s.surveyData = qs)
    (ih : AnswerInv qs s.answers) (e : Event) :
    AnswerInv qs (submittedAnswers s e) := by
  cases e with
  | chooseOption k =>
    simp only [submittedAnswers, onCurrentQuestion]
    split
    · split
      · exact ih
      · rename_i cq heq
        have hcq : cq ∈ qs := by
          rw [hsd] at heq
          exact List.getElem?_mem heq
        split
        · rename_i hty
          split
          · rename_i opt hopt
            refine answerInv_update hnd ih hcq _
              ⟨fun _ => ⟨opt, rfl, List.getElem?_mem hopt⟩, ?_, ?_⟩
            · intro hr
              exact absurd (hty.symm.trans hr) (by decide)
            · intro ht
              exact absurd (hty.symm.trans ht) (by decide)
          · exact ih
        · exact ih
    · exact ih
  | chooseRating i =>
    simp only [submittedAnswers, onCurrentQuestion]
    split
    · split
      · exact ih
      · rename_i cq heq
        have hcq : cq ∈ qs := by
          rw [hsd] at heq
          exact List.getElem?_mem heq
        split
        · rename_i hcond
          refine answerInv_update hnd ih hcq _
            ⟨?_, fun _ => ⟨i, rfl, hcond.2.1, hcond.2.2⟩, ?_⟩
          · intro hm
            exact absurd (hcond.1.symm.trans hm) (by decide)
          · intro ht
            exact absurd (hcond.1.symm.trans ht) (by decide)
        · exact ih
    · exact ih
  | typeText t =>
    simp only [submittedAnswers, onCurrentQuestion]
    split
    · split
      · exact ih
      · rename_i cq heq
        have hcq : cq ∈ qs := by
          rw [hsd] at heq
          exact List.getElem?_mem heq
        split
        · rename_i hty
          refine answerInv_update hnd ih hcq _ ⟨?_, ?_, fun _ => ⟨t, rfl⟩⟩
          · intro hm
            exact absurd (hty.symm.trans hm) (by decide)
          · intro hr
            exact absurd (hty.symm.trans hr) (by decide)
        · exact ih
    · exact ih
  | start => exact ih
  | next => exact ih
  | prev => exact ih
  | restart => exact ih

/-- In every reachable state the answer map satisfies the shape
invariant. -/
theorem answerInv_reachable {qs : List Question} {s : AppState}
    (hnd : (qs.map Question.id).Nodup) (h : Reachable qs s) :
    AnswerInv qs s.answers := by
  induction h with
  | init =>
    intro q hq a ha
    exact Option.noConfusion ha
  | @step s' e h ih =>
    have hsd : s'.surveyData = qs := reachable_surveyData h
    cases e with
    | start =>
      show AnswerInv qs (startSurvey s').answers
      unfold startSurvey
      split
      · intro q hq a ha
        exact Option.noConfusion ha
      · exact ih
    | next =>
      show AnswerInv qs (goNext s').answers
      rw [goNext_answers]
      exact ih
    | prev =>
      show AnswerInv qs (goPrevious s').answers
      rw [goPrevious_answers]
      exact ih
    | restart =>
      show AnswerInv qs (restartSurvey s').answers
      unfold restartSurvey
      split
      · intro q hq a ha
        exact Option.noConfusion ha
      · exact ih
    | chooseOption k => exact answerInv_submit hnd hsd ih (Event.chooseOption k)
    | chooseRating i => exact answerInv_submit hnd hsd ih (Event.chooseRating i)
    | typeText t => exact answerInv_submit hnd hsd ih (Event.typeText t)

/-- C3: in every reachable state every recorded rating answer is an
integer in [1, scale] of its question, and every recorded
multiple-choice answer is one of the options of its question (answers
are only ever written through the per-type input surfaces). -/
theorem answerSet_well_typed (qs : List Question)
    (hnd : (qs.map Question.id).Nodup) (s : AppState)
    (hr : Reachable qs s) (q : Question) (hq : q ∈ qs) (a : Answer)
    (ha : s.answers q.id = some a) :
    (q.qtype = QType.rating →
      ∃ v, a = Answer.aInt v ∧ 1 ≤ v ∧ v ≤ q.scale) ∧
    (q.qtype = QType.multipleChoice →
      ∃ v, a = Answer.aStr v ∧ v ∈ q.options) := by
  have hinv := answerInv_reachable hnd hr q hq a ha
  exact ⟨hinv.2.1, hinv.1⟩

/-- The demo state with option 0 of the required question recorded. -/
def demoAnswered : AppState := stepEvent demoS (Event.chooseOption 0)

/-- Concrete run of the shape invariant after choosing option 0 on the
demo survey. -/
theorem answerSet_well_typed_witness :
    (qMC.qtype = QType.rating →
      ∃ v, Answer.aStr ("A") = Answer.aInt v ∧ 1 ≤ v ∧ v ≤ qMC.scale) ∧
    (qMC.qtype = QType.multipleChoice →
      ∃ v, Answer.aStr ("A") = Answer.aStr v ∧ v ∈ qMC.options) :=
  answerSet_well_typed demoQs (by decide) demoAnswered
    (Reachable.step (Event.chooseOption 0)
      (Reachable.step Event.start Reachable.init))
    qMC (List.mem_singleton.mpr rfl) (Answer.aStr ("A")) rfl

/-- One step of the spec aggregation, pulled off the head. -/
theorem specSummary_cons (q : Question) (qs : List Question)
    (ans : AnswerSet) :
    specSummary (q :: qs) ans =
      (match ans q.id with
        | none => ([] : List (String × String))
        | some a =>
          if a = Answer.aStr ("") then []
          else [(q.title, formatAnswer q a)])
      ++ specSummary qs ans := by
  unfold specSummary
  rw [List.filterMap_cons]
  cases hq : ans q.id with
  | none => simp
  | some a =>
    by_cases he : a = Answer.aStr ("") <;> simp [he]

/-- The append-to-the-container loop of `displayResults` computes the
spec aggregation, for any already-appended prefix. -/
theorem summary_fold (ans : AnswerSet) (qs : List Question) :
    ∀ acc : List (String × String),
      qs.foldl (fun acc q =>
        match ans q.id with
        | some a =>
          if hasAnswer (some a) then acc ++ [(q.title, formatAnswer q a)]
          else acc
        | none => acc) acc = acc ++ specSummary qs ans := by
  induction qs with
  | nil =>
    intro acc
    simp [specSummary]
  | cons q qs ih =>
    intro acc
    have hstep :
        (match ans q.id with
          | some a =>
            if hasAnswer (some a) then acc ++ [(q.title, formatAnswer q a)]
            else acc
          | none => acc)
        = acc ++ (match ans q.id with
          | none => ([] : List (String × String))
          | some a =>
            if a = Answer.aStr ("") then []
            else [(q.title, formatAnswer q a)]) := by
      cases hq : ans q.id with
      | none => simp
      | some a =>
        cases a with
        | aStr v =>
          by_cases hv : v = ""
          · subst hv
            simp [hasAnswer]
          · simp [hasAnswer, hv]
        | aInt v => simp [hasAnswer]
    rw [List.foldl_cons, hstep, ih, specSummary_cons, List.append_assoc]

/-- The items appended by the code equal the spec aggregation. -/
theorem summaryItems_eq_specSummary (qs : List Question)
    (ans : AnswerSet) : summaryItems qs ans = specSummary qs ans := by
  unfold summaryItems
  simpa using summary_fold ans qs []

/-- C4: the results screen shows exactly the ordered (title, formatted
answer) pairs of the spec aggregation - question order preserved, absent
and empty-string answers omitted, ratings formatted as value out of
scale, every other answer raw - and when that sequence is empty the
explicit no-responses condition is signalled instead of an empty
list. -/
theorem displayResults_spec (qs : List Question) (ans : AnswerSet) :
    displayResults qs ans =
      (if specSummary qs ans = [] then ResultsView.noResponses
       else ResultsView.summary (specSummary qs ans)) := by
  unfold displayResults
  rw [summaryItems_eq_specSummary]
  by_cases h : specSummary qs ans = []
  · rw [if_pos h, if_pos (by rw [h]; rfl)]
  · rw [if_neg (fun hl => h (List.length_eq_zero.mp hl)), if_neg h]

/-- Navigation presses never write into the answer map. -/
theorem navEvents_answers (evs : List Event) :
    ∀ s : AppState, (∀ e ∈ evs, e = Event.next ∨ e = Event.prev) →
      (evs.foldl stepEvent s).answers = s.answers := by
  induction evs with
  | nil =>
    intro s _
    rfl
  | cons e evs ih =>
    intro s hnav
    rw [List.foldl_cons]
    have hs : (stepEvent s e).answers = s.answers := by
      rcases hnav e (List.mem_cons_self e evs) with h | h
      · subst h
        exact goNext_answers s
      · subst h
        exact goPrevious_answers s
    rw [ih (stepEvent s e) (fun x hx => hnav x (List.mem_cons_of_mem e hx)),
      hs]

/-- If a value occurs among the rendered options, `querySelector` finds
an element carrying exactly that value. -/
theorem querySelectOption_mem {v : String} :
    ∀ {opts : List String}, v ∈ opts →
      ∃ k, querySelectOption opts v = some k ∧ opts[k]? = some v := by
  intro opts
  induction opts with
  | nil =>
    intro hmem
    cases hmem
  | cons o rest ih =>
    intro hmem
    by_cases ho : (o == v) = true
    · refine ⟨0, ?_, ?_⟩
      · unfold querySelectOption
        rw [if_pos ho]
      · have hov : o = v := by simpa using ho
        simp [hov]
    · have hv : v ∈ rest := by
        rcases List.mem_cons.mp hmem with h | h
        · exact absurd (by simp [h]) ho
        · exact h
      obtain ⟨k, hk, hkv⟩ := ih hv
      refine ⟨k + 1, ?_, ?_⟩
      · unfold querySelectOption
        rw [if_neg ho, hk]
        rfl
      · simpa using hkv

/-- `find?` returns the unique element satisfying the predicate when
that element is present. -/
theorem find?_eq_some_of_unique {α : Type} {p : α → Bool} {i : α} :
    ∀ {l : List α}, i ∈ l → (∀ j ∈ l, p j = true ↔ j = i) →
      l.find? p = some i := by
  intro l
  induction l with
  | nil =>
    intro h
    cases h
  | cons a l ih =>
    intro hmem huniq
    by_cases hpa : p a = true
    · rw [List.find?_cons_of_pos _ hpa]
      rw [(huniq a (List.mem_cons_self a l)).mp hpa]
    · rw [List.find?_cons_of_neg _ hpa]
      have hv : i ∈ l := by
        rcases List.mem_cons.mp hmem with h | h
        · exact absurd ((huniq a (List.mem_cons_self a l)).mpr h.symm) hpa
        · exact h
      exact ih hv (fun j hj => huniq j (List.mem_cons_of_mem a hj))

/-- C5 (amended): for a question with a recorded answer, after any
sequence of navigation presses the recorded entry is unchanged and
re-rendering the question reproduces it in the input surface: for
multiple-choice, provided the recorded option is not the empty string,
an option carrying exactly the recorded value is the selected one; for
rating the recorded value is the highlighted one; for text the field
content equals the recorded string.  (A recorded empty-string
multiple-choice answer is the one exception: the restore guard treats it
as falsy and leaves no option selected.) -/
theorem restore_law_amended (qs : List Question)
    (hnd : (qs.map Question.id).Nodup) (s : AppState)
    (hr : Reachable qs s) (q : Question) (hq : q ∈ qs) (a : Answer)
    (ha : s.answers q.id = some a) (evs : List Event)
    (hnav : ∀ e ∈ evs, e = Event.next ∨ e = Event.prev) :
    (evs.foldl stepEvent s).answers q.id = some a ∧
    (q.qtype = QType.multipleChoice → a ≠ Answer.aStr ("") →
      ∃ k, displayQuestion q (evs.foldl stepEvent s).answers
          = Surface.mcList q.options (some k) ∧
        q.options[k]? = some (answerStr a)) ∧
    (q.qtype = QType.rating →
      ∃ v, a = Answer.aInt v ∧
        displayQuestion q (evs.foldl stepEvent s).answers
          = Surface.ratingScale q.scale (some v)) ∧
    (q.qtype = QType.text →
      displayQuestion q (evs.foldl stepEvent s).answers
        = Surface.textBox (answerStr a)) := by
  have hans : (evs.foldl stepEvent s).answers = s.answers :=
    navEvents_answers evs s hnav
  have hinv := answerInv_reachable hnd hr q hq a ha
  rw [hans]
  refine ⟨ha, ?_, ?_, ?_⟩
  · intro hty hne
    obtain ⟨v, hav, hvmem⟩ := hinv.1 hty
    subst hav
    have hv : ¬ v = "" := fun h => hne (by rw [h])
    obtain ⟨k, hk, hkv⟩ := querySelectOption_mem hvmem
    refine ⟨k, ?_, ?_⟩
    · unfold displayQuestion restorePreviousAnswer
      rw [ha, hty]
      simp [answerTruthy, answerStr, hv, hk]
    · exact hkv
  · intro hty
    obtain ⟨v, hav, h1, h2⟩ := hinv.2.1 hty
    subst hav
    refine ⟨v, rfl, ?_⟩
    have hfind : (List.range' 1 q.scale).find?
        (fun j => domValueMatches j (Answer.aInt v)) = some v := by
      apply find?_eq_some_of_unique
      · exact List.mem_range'_1.mpr ⟨h1, by omega⟩
      · intro j hj
        simp [domValueMatches]
    have htr : answerTruthy (Answer.aInt v) = true := by
      simp only [answerTruthy, Bool.not_eq_true']
      simp only [beq_eq_false_iff_ne, ne_eq]
      omega
    unfold displayQuestion restorePreviousAnswer
    rw [ha, hty]
    simp [htr, hfind]
  · intro hty
    obtain ⟨t, hav⟩ := hinv.2.2 hty
    subst hav
    unfold displayQuestion restorePreviousAnswer
    rw [ha, hty]
    by_cases ht : t = ""
    · subst ht
      simp [answerTruthy, createSurface, hty, answerStr]
    · simp [answerTruthy, ht, answerStr]

/-- A multiple-choice question whose only option is the empty string. -/
def qMCEmptyOpt : Question :=
  { id := 1
    qtype := QType.multipleChoice
    title := "E1"
    description := none
    required := false
    options := [""]
    scale := 0
    labels := none
    placeholder := none }

/-- A free-text question following it. -/
def qTextB : Question :=
  { id := 2
    qtype := QType.text
    title := "E2"
    description := none
    required := false
    options := []
    scale := 0
    labels := none
    placeholder := none }

/-- The two-question survey used for the counterexample. -/
def emptyOptQs : List Question := [qMCEmptyOpt, qTextB]

/-- Start, select the empty-string option, navigate away and back. -/
def emptyOptRun : AppState :=
  [Event.start, Event.chooseOption 0, Event.next, Event.prev].foldl
    stepEvent (initState emptyOptQs)

/-- C5 counterexample: the empty-string option of question 1 is the
recorded answer, we navigated away and back to it, yet the re-rendered
surface has no option selected - the recorded option is not the selected
one, against the claim. -/
theorem restore_law_counterexample :
    emptyOptRun.answers qMCEmptyOpt.id = some (Answer.aStr ("")) ∧
    emptyOptRun.currentIndex = 0 ∧
    displayQuestion qMCEmptyOpt emptyOptRun.answers
      = Surface.mcList [""] none :=
  ⟨rfl, rfl, rfl⟩

/-- An ordinary multiple-choice question for the witness survey. -/
def qMCb : Question :=
  { id := 1
    qtype := QType.multipleChoice
    title := "W1"
    description := none
    required := false
    options := ["A", "B"]
    scale := 0
    labels := none
    placeholder := none }

/-- A free-text question following it in the witness survey. -/
def qTextW : Question :=
  { id := 2
    qtype := QType.text
    title := "W2"
    description := none
    required := false
    options := []
    scale := 0
    labels := none
    placeholder := none }

/-- The two-question witness survey. -/
def demo2Qs : List Question := [qMCb, qTextW]

/-- Witness state: started and option 1 of question 1 selected. -/
def demo2S : AppState :=
  stepEvent (stepEvent (initState demo2Qs) Event.start)
    (Event.chooseOption 1)

/-- Concrete run of the restore law: after next and previous, option B
is still recorded and is the selected one in the re-rendered surface. -/
theorem restore_law_amended_witness :
    (([Event.next, Event.prev].foldl stepEvent demo2S).answers qMCb.id
      = some (Answer.aStr ("B"))) ∧
    (qMCb.qtype = QType.multipleChoice →
      Answer.aStr ("B") ≠ Answer.aStr ("") →
      ∃ k, displayQuestion qMCb
            ([Event.next, Event.prev].foldl stepEvent demo2S).answers
          = Surface.mcList qMCb.options (some k) ∧
        qMCb.options[k]? = some (answerStr (Answer.aStr ("B")))) ∧
    (qMCb.qtype = QType.rating →
      ∃ v, Answer.aStr ("B") = Answer.aInt v ∧
        displayQuestion qMCb
            ([Event.next, Event.prev].foldl stepEvent demo2S).answers
          = Surface.ratingScale qMCb.scale (some v)) ∧
    (qMCb.qtype = QType.text →
      displayQuestion qMCb
          ([Event.next, Event.prev].foldl stepEvent demo2S).answers
        = Surface.textBox (answerStr (Answer.aStr ("B")))) :=
  restore_law_amended demo2Qs (by decide) demo2S
    (Reachable.step (Event.chooseOption 1)
      (Reachable.step Event.start Reachable.init))
    qMCb (List.mem_cons_self _ _) (Answer.aStr ("B")) rfl
    [Event.next, Event.prev] (by decide)

end Survey

namespace Categories

/-- Model of the JS `toLowerCase()` call used by the duplicate-name
checks, character by character. -/
def lowercase (s : String) : String :=
  String.mk (s.data.map Char.toLower)

/-- Model of the JS `trim()` call used on submitted names: strip leading
and trailing whitespace. -/
def trimStr (s : String) : String :=
  String.mk
    (((s.data.dropWhile Char.isWhitespace).reverse.dropWhile
      Char.isWhitespace).reverse)

/-- A stored category record (`server.js` lines 104-111). -/
structure Category where
  id : Nat
  name : String
  description : String
  color : String
  createdAt : String
  updatedAt : String
deriving DecidableEq

/-- The persisted state: the `categories` array and `nextCategoryId`. -/
structure Store where
  categories : List Category
  nextId : Nat
deriving DecidableEq

/-- A JSON request body `{name, description, color}`; a missing or
non-string field is `none`. -/
structure CatBody where
  name : Option String
  description : Option String
  color : Option String
deriving DecidableEq

/-- An HTTP response: status code with the returned category, or status
code with the error message. -/
inductive ApiResp where
  | ok (status : Nat) (c : Category)
  | err (status : Nat) (msg : String)
deriving DecidableEq

/-- The freshly initialised store (also the fallback when the data file
is unreadable): no categories, next id 1. -/
def emptyStore : Store := { categories := [], nextId := 1 }

/-- JS `value || fallback` on an optional string field: a missing field
and the empty string both yield the fallback. -/
def orDefault (o : Option String) (d : String) : String :=
  match o with
  | some v => if v = "" then d else v
  | none => d

/-- `Array.prototype.findIndex`: index of the first element satisfying
the predicate. -/
def findIndex (p : Category → Bool) : List Category → Option Nat
  | [] => none
  | c :: rest => if p c then some 0 else (findIndex p rest).map (· + 1)

/-- In-place update of the array element at an index
(`categories[categoryIndex].field = ...`). -/
def listSet : List Category → Nat → Category → List Category
  | [], _, _ => []
  | _ :: rest, 0, x => x :: rest
  | c :: rest, Nat.succ k, x => c :: listSet rest k x

/-- `Array.prototype.splice(k, 1)`: remove the element at an index. -/
def removeAt : List Category → Nat → List Category
  | [], _ => []
  | _ :: rest, 0 => rest
  | c :: rest, Nat.succ k => c :: removeAt rest k

/-- GET `/api/categories/:id` (lines 66-81). -/
def getCategory (st : Store) (id : Nat) : ApiResp :=
  match st.categories.find? (fun c => c.id == id) with
  | none => ApiResp.err 404 ("Category not found")
  | some c => ApiResp.ok 200 c

/-- POST `/api/categories` (lines 84-121): reject a missing or
all-whitespace name, reject a name whose lowercase form equals the
lowercase form of a stored name (the raw, untrimmed submission is
compared), otherwise append the new record with the trimmed name and
bump the id counter. -/
def postCategory (st : Store) (body : CatBody) (now : String) :
    ApiResp × Store :=
  match body.name with
  | none => (ApiResp.err 400 ("Category name is required"), st)
  | some n =>
    if (trimStr n).length = 0 then
      (ApiResp.err 400 ("Category name is required"), st)
    else
      match st.categories.find?
          (fun c => lowercase c.name == lowercase n) with
      | some _ =>
        (ApiResp.err 400 ("Category with this name already exists"), st)
      | none =>
        let c : Category :=
          { id := st.nextId
            name := trimStr n
            description := orDefault body.description ("")
            color := orDefault body.color ("#667eea")
            createdAt := now
            updatedAt := now }
        (ApiResp.ok 201 c,
         { categories := st.categories ++ [c], nextId := st.nextId + 1 })

/-- The field-by-field update of PUT (lines 158-163): name is stored
trimmed when provided; description and color are taken verbatim when
provided (strict `!== undefined` checks); `updatedAt` is refreshed. -/
def applyUpdate (c : Category) (body : CatBody) (now : String) :
    Category :=
  { c with
    name := match body.name with | some n => trimStr n | none => c.name
    description :=
      match body.description with | some d => d | none => c.description
    color := match body.color with | some col => col | none => c.color
    updatedAt := now }

/-- PUT `/api/categories/:id` (lines 124-172): 404 when the id is
unknown; when a name is supplied, reject an all-whitespace name and a
name whose lowercase form equals that of a DIFFERENT stored category;
then update in place. -/
def putCategory (st : Store) (id : Nat) (body : CatBody) (now : String) :
    ApiResp × Store :=
  match findIndex (fun c => c.id == id) st.categories with
  | none => (ApiResp.err 404 ("Category not found"), st)
  | some k =>
    match st.categories[k]? with
    | none => (ApiResp.err 404 ("Category not found"), st)
    | some c =>
      match body.name with
      | some n =>
        if (trimStr n).length = 0 then
          (ApiResp.err 400 ("Category name must be a non-empty string"),
           st)
        else if (st.categories.find? (fun d =>
            !(d.id == id) && (lowercase d.name == lowercase n))).isSome
        then
          (ApiResp.err 400 ("Category with this name already exists"),
           st)
        else
          (ApiResp.ok 200 (applyUpdate c body now),
           { categories := listSet st.categories k (applyUpdate c body now)
             nextId := st.nextId })
      | none =>
        (ApiResp.ok 200 (applyUpdate c body now),
         { categories := listSet st.categories k (applyUpdate c body now)
           nextId := st.nextId })

/-- DELETE `/api/categories/:id` (lines 175-195): 404 when the id is
unknown, otherwise splice the record out. -/
def deleteCategory (st : Store) (id : Nat) : ApiResp × Store :=
  match findIndex (fun c => c.id == id) st.categories with
  | none => (ApiResp.err 404 ("Category not found"), st)
  | some k =>
    match st.categories[k]? with
    | none => (ApiResp.err 404 ("Category not found"), st)
    | some c =>
      (ApiResp.ok 200 c,
       { categories := removeAt st.categories k, nextId := st.nextId })

/-- `findIndex` misses when no element satisfies the predicate. -/
theorem findIndex_eq_none {p : Category → Bool} :
    ∀ {l : List Category}, (∀ c ∈ l, ¬ p c = true) →
      findIndex p l = none := by
  intro l
  induction l with
  | nil =>
    intro _
    rfl
  | cons a rest ih =>
    intro h
    unfold findIndex
    rw [if_neg (h a (List.mem_cons_self a rest)),
      ih (fun c hc => h c (List.mem_cons_of_mem a hc))]
    rfl

/-- A hit of `findIndex` points at an element satisfying the
predicate. -/
theorem findIndex_some {p : Category → Bool} :
    ∀ {l : List Category} {k : Nat}, findIndex p l = some k →
      ∃ c, l[k]? = some c ∧ p c = true := by
  intro l
  induction l with
  | nil =>
    intro k h
    exact Option.noConfusion h
  | cons a rest ih =>
    intro k h
    unfold findIndex at h
    by_cases hpa : p a = true
    · rw [if_pos hpa] at h
      cases h
      exact ⟨a, by simp, hpa⟩
    · rw [if_neg hpa] at h
      cases hfi : findIndex p rest with
      | none =>
        rw [hfi] at h
        exact Option.noConfusion h
      | some k0 =>
        rw [hfi] at h
        have hk : k = k0 + 1 := by
          simpa using h.symm
        subst hk
        obtain ⟨c, hc, hpc⟩ := ih hfi
        exact ⟨c, by simpa using hc, hpc⟩

/-- Elements of an in-place update are the new value or old elements. -/
theorem mem_listSet {x d : Category} :
    ∀ {l : List Category} {k : Nat}, d ∈ listSet l k x →
      d = x ∨ d ∈ l := by
  intro l
  induction l with
  | nil =>
    intro k h
    cases h
  | cons a rest ih =>
    intro k h
    cases k with
    | zero =>
      rcases List.mem_cons.mp h with h1 | h1
      · exact Or.inl h1
      · exact Or.inr (List.mem_cons_of_mem a h1)
    | succ k =>
      rcases List.mem_cons.mp h with h1 | h1
      · exact Or.inr (by rw [h1]; exact List.mem_cons_self a rest)
      · rcases ih h1 with h2 | h2
        · exact Or.inl h2
        · exact Or.inr (List.mem_cons_of_mem a h2)

/-- Replacing the element at a found position keeps a pairwise relation,
provided the replacement is related (both ways) to every element with a
different id; the ids themselves are pairwise distinct, so only the
replaced slot shares the id of the replaced element. -/
theorem pairwise_listSet_of_ids {R : Category → Category → Prop} :
    ∀ {l : List Category} {k : Nat} {c x : Category},
      l.Pairwise R → l.Pairwise (fun a b => a.id ≠ b.id) →
      l[k]? = some c →
      (∀ b ∈ l, b.id ≠ c.id → R b x ∧ R x b) →
      (listSet l k x).Pairwise R := by
  intro l
  induction l with
  | nil =>
    intro k c x _ _ hk _
    exact Option.noConfusion hk
  | cons a rest ih =>
    intro k c x hp hid hk hbx
    rcases List.pairwise_cons.mp hp with ⟨hpa, hprest⟩
    rcases List.pairwise_cons.mp hid with ⟨hida, hidrest⟩
    cases k with
    | zero =>
      have hac : a = c := by simpa using hk
      subst hac
      refine List.pairwise_cons.mpr ⟨?_, hprest⟩
      intro b hb
      exact (hbx b (List.mem_cons_of_mem a hb)
        (Ne.symm (hida b hb))).2
    | succ k =>
      have hk' : rest[k]? = some c := by simpa using hk
      refine List.pairwise_cons.mpr ⟨?_, ?_⟩
      · intro b hb
        rcases mem_listSet hb with rfl | hbr
        · exact (hbx a (List.mem_cons_self a rest)
            (hida c (List.getElem?_mem hk'))).1
        · exact hpa b hbr
      · exact ih hprest hidrest hk'
          (fun b hb hbid => hbx b (List.mem_cons_of_mem a hb) hbid)

/-- Case-insensitive distinctness of the stored names, as the spec
states it for the category collection. -/
def namesCIDistinct (st : Store) : Prop :=
  st.categories.Pairwise (fun a b => lowercase a.name ≠ lowercase b.name)

/-- The full store invariant maintained by the handlers: distinct
lowercased names, distinct ids, and all ids below the next free id. -/
def StoreInv (st : Store) : Prop :=
  namesCIDistinct st ∧
  st.categories.Pairwise (fun a b => a.id ≠ b.id) ∧
  ∀ c ∈ st.categories, c.id < st.nextId

/-- The fresh store satisfies the invariant. -/
theorem storeInv_empty : StoreInv emptyStore :=
  ⟨List.Pairwise.nil, List.Pairwise.nil,
   fun c hc => absurd hc (List.not_mem_nil c)⟩

/-- C7: GET, PUT and DELETE on an id held by no stored category all
answer 404 and leave the collection unchanged. -/
theorem unknown_id_not_found (st : Store) (id : Nat) (body : CatBody)
    (now : String) (h : ∀ c ∈ st.categories, c.id ≠ id) :
    getCategory st id = ApiResp.err 404 ("Category not found") ∧
    putCategory st id body now
      = (ApiResp.err 404 ("Category not found"), st) ∧
    deleteCategory st id
      = (ApiResp.err 404 ("Category not found"), st) := by
  have hfind : st.categories.find? (fun c => c.id == id) = none :=
    List.find?_eq_none.mpr (fun c hc => by simpa using h c hc)
  have hidx : findIndex (fun c => c.id == id) st.categories = none :=
    findIndex_eq_none (fun c hc => by simpa using h c hc)
  refine ⟨?_, ?_, ?_⟩
  · unfold getCategory
    rw [hfind]
  · unfold putCategory
    rw [hidx]
  · unfold deleteCategory
    rw [hidx]

/-- A one-category store used as concrete input for the witnesses. -/
def demoCat : Category :=
  { id := 1
    name := "Ops"
    description := ""
    color := "#667eea"
    createdAt := "t0"
    updatedAt := "t0" }

/-- The witness store holding only `demoCat`. -/
def demoStore : Store := { categories := [demoCat], nextId := 2 }

/-- A request body with no fields. -/
def emptyBody : CatBody := { name := none, description := none, color := none }

/-- Concrete run: id 2 was never created, so all three verbs answer 404
on the witness store and leave it unchanged. -/
theorem unknown_id_not_found_witness :
    getCategory demoStore 2 = ApiResp.err 404 ("Category not found") ∧
    putCategory demoStore 2 emptyBody ("t1")
      = (ApiResp.err 404 ("Category not found"), demoStore) ∧
    deleteCategory demoStore 2
      = (ApiResp.err 404 ("Category not found"), demoStore) :=
  unknown_id_not_found demoStore 2 emptyBody ("t1") (by decide)

/-- POST keeps the store invariant when the submitted name carries no
surrounding whitespace (so the stored, trimmed name is the compared
one). -/
theorem storeInv_post (st : Store) (body : CatBody) (now : String)
    (hinv : StoreInv st)
    (htr : ∀ n, body.name = some n → trimStr n = n) :
    StoreInv (postCategory st body now).2 := by
  obtain ⟨hnames, hids, hbound⟩ := hinv
  unfold postCategory
  cases hb : body.name with
  | none => exact ⟨hnames, hids, hbound⟩
  | some n =>
    dsimp only
    split
    · exact ⟨hnames, hids, hbound⟩
    · cases hfind : st.categories.find?
          (fun c => lowercase c.name == lowercase n) with
      | some c => exact ⟨hnames, hids, hbound⟩
      | none =>
        dsimp only
        have htn : trimStr n = n := htr n hb
        have hdup : ∀ d ∈ st.categories,
            lowercase d.name ≠ lowercase n := by
          intro d hd
          have hx := List.find?_eq_none.mp hfind d hd
          simpa using hx
        refine ⟨?_, ?_, ?_⟩
        · refine List.pairwise_append.mpr
            ⟨hnames, List.pairwise_singleton _ _, ?_⟩
          intro a ha b hbm
          have hbx := List.mem_singleton.mp hbm
          subst hbx
          show lowercase a.name ≠ lowercase (trimStr n)
          rw [htn]
          exact hdup a ha
        · refine List.pairwise_append.mpr
            ⟨hids, List.pairwise_singleton _ _, ?_⟩
          intro a ha b hbm
          have hbx := List.mem_singleton.mp hbm
          subst hbx
          show a.id ≠ st.nextId
          have := hbound a ha
          omega
        · intro d hd
          rcases List.mem_append.mp hd with hdl | hdr
          · have := hbound d hdl
            show d.id < st.nextId + 1
            omega
          · have hdx := List.mem_singleton.mp hdr
            subst hdx
            show st.nextId < st.nextId + 1
            omega

/-- In-place update of a found record keeps the store invariant when the
replacement keeps the id and its name clashes with no differently-id-ed
stored record. -/
theorem storeInv_set {st : Store} {k : Nat} {c x : Category}
    (hinv : StoreInv st) (hkc : st.categories[k]? = some c)
    (hxid : x.id = c.id)
    (hxname : ∀ b ∈ st.categories, b.id ≠ c.id →
      lowercase b.name ≠ lowercase x.name) :
    StoreInv
      { categories := listSet st.categories k x, nextId := st.nextId } := by
  obtain ⟨hnames, hids, hbound⟩ := hinv
  refine ⟨?_, ?_, ?_⟩
  · apply pairwise_listSet_of_ids hnames hids hkc
    intro b hb hbid
    exact ⟨hxname b hb hbid, (hxname b hb hbid).symm⟩
  · apply pairwise_listSet_of_ids hids hids hkc
    intro b hb hbid
    exact ⟨by rw [hxid]; exact hbid, by rw [hxid]; exact hbid.symm⟩
  · intro d hd
    rcases mem_listSet hd with rfl | hdl
    · show d.id < st.nextId
      rw [hxid]
      exact hbound c (List.getElem?_mem hkc)
    · exact hbound d hdl

/-- PUT keeps the store invariant when the submitted name (if any)
carries no surrounding whitespace. -/
theorem storeInv_put (st : Store) (id : Nat) (body : CatBody)
    (now : String) (hinv : StoreInv st)
    (htr : ∀ n, body.name = some n → trimStr n = n) :
    StoreInv (putCategory st id body now).2 := by
  have hinv' := hinv
  obtain ⟨hnames, hids, hbound⟩ := hinv'
  unfold putCategory
  cases hfi : findIndex (fun c => c.id == id) st.categories with
  | none => exact ⟨hnames, hids, hbound⟩
  | some k =>
    obtain ⟨c0, hkc0, hc0⟩ := findIndex_some hfi
    dsimp only
    rw [hkc0]
    have hcid : c0.id = id := by simpa using hc0
    cases hb : body.name with
    | none =>
      dsimp only
      apply storeInv_set hinv hkc0
        (rfl : (applyUpdate c0 body now).id = c0.id)
      intro b hbm hbid
      have hbc : b ≠ c0 := fun he => hbid (by rw [he])
      have hlow := hnames.forall (fun _ _ hab => hab.symm) hbm
        (List.getElem?_mem hkc0) hbc
      show lowercase b.name ≠ lowercase (applyUpdate c0 body now).name
      have hname : (applyUpdate c0 body now).name = c0.name := by
        unfold applyUpdate
        rw [hb]
      rw [hname]
      exact hlow
    | some n =>
      dsimp only
      split
      · exact ⟨hnames, hids, hbound⟩
      · split
        · exact ⟨hnames, hids, hbound⟩
        · rename_i hlen hdups
          have hdup : ∀ d ∈ st.categories, d.id ≠ id →
              lowercase d.name ≠ lowercase n := by
            intro d hd hdid
            have hnone : st.categories.find? (fun d =>
                !(d.id == id) && (lowercase d.name == lowercase n))
                = none := by
              cases hfd : st.categories.find? (fun d =>
                  !(d.id == id) && (lowercase d.name == lowercase n)) with
              | none => rfl
              | some d0 =>
                exact absurd (by rw [hfd]; rfl) hdups
            have hx := List.find?_eq_none.mp hnone d hd
            simp only [Bool.and_eq_true, Bool.not_eq_true',
              beq_eq_false_iff_ne, ne_eq, beq_iff_eq] at hx
            intro he
            exact hx ⟨hdid, he⟩
          apply storeInv_set hinv hkc0
            (rfl : (applyUpdate c0 body now).id = c0.id)
          intro b hbm hbid
          show lowercase b.name ≠ lowercase (applyUpdate c0 body now).name
          have hname : (applyUpdate c0 body now).name = trimStr n := by
            unfold applyUpdate
            rw [hb]
          rw [hname, htr n hb]
          exact hdup b hbm (by rw [hcid] at hbid; exact hbid)

/-- A mutating request against the categories service: POST a body, or
PUT a body at an id, each carrying the server timestamp. -/
inductive CatOp where
  | post (body : CatBody) (now : String)
  | put (id : Nat) (body : CatBody) (now : String)
deriving DecidableEq

/-- The store left behind by one request. -/
def applyOp (st : Store) : CatOp → Store
  | CatOp.post body now => (postCategory st body now).2
  | CatOp.put id body now => (putCategory st id body now).2

/-- The store after a sequence of requests. -/
def runOps (st : Store) (ops : List CatOp) : Store :=
  ops.foldl applyOp st

/-- The name carried by a request body, when present, has no leading or
trailing whitespace. -/
def trimmedNames : CatOp → Prop
  | CatOp.post body _ => ∀ n, body.name = some n → trimStr n = n
  | CatOp.put _ body _ => ∀ n, body.name = some n → trimStr n = n

/-- Any sequence of POST and PUT requests with whitespace-clean names
keeps the store invariant. -/
theorem storeInv_runOps (ops : List CatOp) :
    ∀ st : Store, StoreInv st → (∀ op ∈ ops, trimmedNames op) →
      StoreInv (runOps st ops) := by
  induction ops with
  | nil =>
    intro st h _
    exact h
  | cons op ops ih =>
    intro st h hops
    show StoreInv (ops.foldl applyOp (applyOp st op))
    apply ih (applyOp st op) ?_
      (fun o ho => hops o (List.mem_cons_of_mem op ho))
    cases op with
    | post body now =>
      exact storeInv_post st body now h
        (hops _ (List.mem_cons_self _ _))
    | put id body now =>
      exact storeInv_put st id body now h
        (hops _ (List.mem_cons_self _ _))

/-- C6 (amended): for request sequences whose names carry no leading or
trailing whitespace, the stored names stay pairwise distinct
case-insensitively; and a POST whose (non-blank) raw name
case-insensitively equals a stored name always fails with the 400
duplicate-name error, leaving the store unchanged.  (Without the
whitespace proviso the invariant fails: the duplicate check compares the
raw submission but the trimmed name is stored.) -/
theorem category_names_distinct_amended :
    (∀ ops : List CatOp, (∀ op ∈ ops, trimmedNames op) →
      namesCIDistinct (runOps emptyStore ops)) ∧
    (∀ (st : Store) (body : CatBody) (n now : String),
      body.name = some n → (trimStr n).length ≠ 0 →
      (∃ c ∈ st.categories, lowercase c.name = lowercase n) →
      postCategory st body now =
        (ApiResp.err 400 ("Category with this name already exists"),
         st)) := by
  constructor
  · intro ops hops
    exact (storeInv_runOps ops emptyStore storeInv_empty hops).1
  · intro st body n now hb hlen hex
    unfold postCategory
    rw [hb]
    dsimp only
    rw [if_neg hlen]
    obtain ⟨c, hc, he⟩ := hex
    cases hfind : st.categories.find?
        (fun d => lowercase d.name == lowercase n) with
    | none =>
      exact absurd (by simp [he])
        (List.find?_eq_none.mp hfind c hc)
    | some d => rfl

/-- The whitespace-abusing request pair: POST name Ops, then POST the
same name with a leading space. -/
def opsNameClash : List CatOp :=
  [CatOp.post
    { name := some ("Ops"), description := none, color := none } ("t1"),
   CatOp.post
    { name := some (" Ops"), description := none, color := none } ("t2")]

/-- C6 counterexample: both POSTs succeed - the duplicate check compares
the raw name, whose leading space defeats the case-insensitive match,
while the trimmed name is stored - so the store ends with the name Ops
twice and the distinctness invariant is broken. -/
theorem category_names_distinct_counterexample :
    (runOps emptyStore opsNameClash).categories.map Category.name
      = ["Ops", "Ops"] ∧
    ¬ namesCIDistinct (runOps emptyStore opsNameClash) := by
  constructor
  · decide
  · unfold namesCIDistinct
    decide

/-- The single whitespace-clean POST used by the witness. -/
def opsClean : List CatOp :=
  [CatOp.post
    { name := some ("Ops"), description := none, color := none } ("t1")]

/-- Concrete run of the amended claim: after a clean POST the store
names are distinct, and a second POST of the same name in different case
fails with the duplicate-name error and leaves the store unchanged. -/
theorem category_names_distinct_amended_witness :
    namesCIDistinct (runOps emptyStore opsClean) ∧
    postCategory (runOps emptyStore opsClean)
        { name := some ("ops"), description := none, color := none }
        ("t2")
      = (ApiResp.err 400 ("Category with this name already exists"),
         runOps emptyStore opsClean) :=
  ⟨category_names_distinct_amended.1 opsClean
    (by
      intro op hop
      have hx := List.mem_singleton.mp hop
      subst hx
      intro n hn
      cases hn
      decide),
   category_names_distinct_amended.2 (runOps emptyStore opsClean)
    { name := some ("ops"), description := none, color := none }
    ("ops") ("t2") rfl (by decide)
    ⟨{ id := 1
       name := "Ops"
       description := ""
       color := "#667eea"
       createdAt := "t1"
       updatedAt := "t1" }, by decide, by decide⟩⟩

/-- C10: a PUT whose body name case-insensitively equals the current
name of the addressed category itself succeeds with 200 - the duplicate
check skips the record being updated - and stores the update in
place. -/
theorem put_own_name_ok (st : Store) (id : Nat) (k : Nat) (c : Category)
    (body : CatBody) (n now : String)
    (hnames : namesCIDistinct st)
    (hfi : findIndex (fun d => d.id == id) st.categories = some k)
    (hkc : st.categories[k]? = some c)
    (hb : body.name = some n)
    (hlen : (trimStr n).length ≠ 0)
    (hn : lowercase n = lowercase c.name) :
    putCategory st id body now =
      (ApiResp.ok 200 (applyUpdate c body now),
       { categories := listSet st.categories k (applyUpdate c body now)
         nextId := st.nextId }) := by
  obtain ⟨c0, hkc0, hc0⟩ := findIndex_some hfi
  have hcc : c0 = c := by
    rw [hkc0] at hkc
    exact Option.some.inj hkc
  subst hcc
  have hcid : c0.id = id := by simpa using hc0
  have hdup : st.categories.find? (fun d =>
      !(d.id == id) && (lowercase d.name == lowercase n)) = none := by
    apply List.find?_eq_none.mpr
    intro d hd
    simp only [Bool.and_eq_true, Bool.not_eq_true',
      beq_eq_false_iff_ne, ne_eq, beq_iff_eq, not_and]
    intro hdid he
    have hdc : d ≠ c0 := fun hq => hdid (by rw [hq, hcid])
    have hne := hnames.forall (fun _ _ hab => hab.symm) hd
      (List.getElem?_mem hkc0) hdc
    exact hne (he.trans hn)
  unfold putCategory
  rw [hfi]
  dsimp only
  rw [hkc0, hb]
  dsimp only
  rw [if_neg hlen, if_neg (by rw [hdup]; simp)]

/-- A PUT body renaming to the same name in different case. -/
def bodyOwnName : CatBody :=
  { name := some ("ops"), description := none, color := none }

/-- Concrete run: renaming the stored category Ops to ops succeeds with
200 and updates it in place. -/
theorem put_own_name_ok_witness :
    putCategory demoStore 1 bodyOwnName ("t1") =
      (ApiResp.ok 200 (applyUpdate demoCat bodyOwnName ("t1")),
       { categories :=
           listSet demoStore.categories 0 (applyUpdate demoCat bodyOwnName ("t1"))
         nextId := demoStore.nextId }) :=
  put_own_name_ok demoStore 1 0 demoCat bodyOwnName ("ops") ("t1")
    (List.pairwise_singleton _ _) rfl rfl rfl (by decide) (by decide)

end Categories
